import Mathlib

/-!
Shallow embedding of the `sbarena` bucketed arena allocator (`arena.go`).

Modelling conventions:
* Go machine integers (`uintptr` sizes, `int` indices) are modelled as `Nat`.
  In `Alloc` the only subtractions performed by the Go code are
  `a.bucketSize - a.bytesLeft` (offset computation) and
  `a.bytesLeft - size` (cursor bump); under the arena invariant
  `bytesLeft ≤ bucketSize` and the size precondition neither ever
  underflows, so truncated `Nat` subtraction agrees with `uintptr`
  arithmetic on every state our theorems talk about.
* A Go slice of bytes becomes a `List Nat`; `make(bucket, size, size)`
  becomes `List.replicate size 0`.
* `weak.Pointer[T]` becomes an `Option (Nat × Nat)`: `none` models
  `weak.Make[T](nil)` (a handle that never resolves), `some (i, off)`
  a pointer to byte `off` of bucket `i`.
* A Go runtime panic from an out-of-range slice index is modelled by the
  dedicated `AllocResult.oob` outcome, so the embedding does not silently
  totalise the partial indexing operation.
* The `noCopy` marker and the `writing atomic.Bool` spin-lock carry no
  sequential state; the sequential semantics of each operation is the body
  between lock acquisition and release.
-/

/-- `bucket []byte`: a byte buffer. -/
abbrev bucket := List Nat

/-- `newBucket(size)` returns `make(bucket, size, size)`: `size` zero bytes. -/
def newBucket (size : Nat) : bucket := List.replicate size 0

/-- The `Arena` struct of `arena.go` (fields `buckets`, `curBucket`,
`bytesLeft`, `bucketSize`; the `noCopy` and `writing` fields carry no
sequential state). -/
structure Arena where
  buckets : List bucket
  curBucket : Nat
  bytesLeft : Nat
  bucketSize : Nat
deriving DecidableEq

/-- `DefaultBlockSize`: 64 KiB, used when a bucket size `<= 0` is supplied. -/
def DefaultBlockSize : Nat := 65536

/-- `NewArena(bucketSizeBytes)`; for the unsigned `uintptr` argument the Go
test `bucketSizeBytes <= 0` means `bucketSizeBytes == 0`. -/
def NewArena (bucketSizeBytes : Nat) : Arena :=
  let b := if bucketSizeBytes ≤ 0 then DefaultBlockSize else bucketSizeBytes
  { buckets := [newBucket b]
    curBucket := 0
    bytesLeft := b
    bucketSize := b }

/-- `BucketSizeBytes(a)`. -/
def BucketSizeBytes (a : Arena) : Nat := a.bucketSize

/-- `NumBuckets(a) = len(a.buckets)`. -/
def NumBuckets (a : Arena) : Nat := a.buckets.length

/-- `TotalMemBytes(a) = a.bucketSize * len(a.buckets)`. -/
def TotalMemBytes (a : Arena) : Nat := a.bucketSize * a.buckets.length

/-- A `weak.Pointer[T]`: `none` is `weak.Make[T](nil)` (permanently
unresolvable), `some (i, off)` points at byte `off` of bucket `i`. -/
abbrev Handle := Option (Nat × Nat)

/-- Outcome of one `Alloc` call: the `ValueToLargeErr` return (carrying the
two sizes interpolated into the wrapped error message), a successful return,
or a Go runtime panic caused by an out-of-range slice index. -/
inductive AllocResult where
  | err (requested bucketSize : Nat) (h : Handle) (a : Arena)
  | ok (h : Handle) (a : Arena)
  | oob (a : Arena)
deriving DecidableEq

/-- The arena state after the call (for `oob` the state at the failed index
expression, which is never observed by the Go caller). -/
def AllocResult.state : AllocResult → Arena
  | .err _ _ _ a => a
  | .ok _ a => a
  | .oob a => a

/-- The handle given back to the caller. -/
def AllocResult.handle : AllocResult → Handle
  | .err _ _ h _ => h
  | .ok h _ => h
  | .oob _ => none

/-- Whether the call returned the `ValueToLargeErr` error. -/
def AllocResult.isErr : AllocResult → Bool
  | .err _ _ _ _ => true
  | _ => false

/-- The cursor-advance prefix of `Alloc` (lines 121–131 of `arena.go`):
append a first bucket when the store is empty, else on insufficient space
append one bucket when the current bucket is the last one and move the
cursor to the start of the next bucket.  The Go code performs
`a.curBucket++; a.bytesLeft = a.bucketSize` after the conditional append;
here that cursor update is folded into both branches of the conditional. -/
def allocAdvance (size : Nat) (a : Arena) : Arena :=
  if a.buckets.length = 0 then
    { a with buckets := a.buckets ++ [newBucket a.bucketSize]
             bytesLeft := a.bucketSize
             curBucket := 0 }
  else if a.bytesLeft < size then
    if a.curBucket = a.buckets.length - 1 then
      { a with buckets := a.buckets ++ [newBucket a.bucketSize]
               curBucket := a.curBucket + 1
               bytesLeft := a.bucketSize }
    else
      { a with curBucket := a.curBucket + 1
               bytesLeft := a.bucketSize }
  else a

/-- `Alloc[T](a)` for a type of the given size: reject sizes above the
bucket size, otherwise advance/grow, form the pointer
`&a.buckets[a.curBucket][a.bucketSize-a.bytesLeft]` (a Go panic when either
index is out of range, modelled by `.oob`) and bump the cursor. -/
def Alloc (size : Nat) (a : Arena) : AllocResult :=
  if a.bucketSize < size then
    .err size a.bucketSize none a
  else
    match (allocAdvance size a).buckets[(allocAdvance size a).curBucket]? with
    | some b =>
      if (allocAdvance size a).bucketSize - (allocAdvance size a).bytesLeft
          < b.length then
        .ok
          (some ((allocAdvance size a).curBucket,
            (allocAdvance size a).bucketSize - (allocAdvance size a).bytesLeft))
          { allocAdvance size a with
              bytesLeft := (allocAdvance size a).bytesLeft - size }
      else .oob (allocAdvance size a)
    | none => .oob (allocAdvance size a)

/-- `Reset(a)`: rewind the cursor, keep every bucket. -/
def Reset (a : Arena) : Arena :=
  { a with bytesLeft := a.bucketSize, curBucket := 0 }

/-- `Clear(a)`: drop the bucket list, rewind the cursor. -/
def Clear (a : Arena) : Arena :=
  { a with buckets := [], bytesLeft := a.bucketSize, curBucket := 0 }

/-- The arena state after `n` further `Alloc` calls of the given size. -/
def allocN (size : Nat) : Nat → Arena → Arena
  | 0, a => a
  | n + 1, a => allocN size n (Alloc size a).state

/-- Run one `Alloc` per entry of `sizes`, recording each issued slot as
`(bucketIdx, offset, size)`; `none` unless every allocation succeeds. -/
def allocSeq : List Nat → Arena → Option (List (Nat × Nat × Nat) × Arena)
  | [], a => some ([], a)
  | s :: rest, a =>
    match Alloc s a with
    | .ok (some (b, o)) a1 =>
      match allocSeq rest a1 with
      | some (slots, afin) => some ((b, o, s) :: slots, afin)
      | none => none
    | _ => none

/-- Two issued slots `(bucketIdx, offset, size)` occupy disjoint byte
ranges: different buckets, or non-overlapping `[offset, offset+size)`
intervals. -/
def SlotDisjoint (x y : Nat × Nat × Nat) : Prop :=
  x.1 ≠ y.1 ∨ x.2.1 + x.2.2 ≤ y.2.1 ∨ y.2.1 + y.2.2 ≤ x.2.1

/-- The state invariant listed in the spec's data model: the cursor index is
in range whenever buckets exist, the free-byte count never exceeds the
bucket size, and every bucket is exactly `bucketSize` bytes long. -/
abbrev ArenaInv (a : Arena) : Prop :=
  (0 < a.buckets.length → a.curBucket < a.buckets.length) ∧
  a.bytesLeft ≤ a.bucketSize ∧
  (∀ b ∈ a.buckets, b.length = a.bucketSize)

/-- `ArenaInv` plus the extra fact true of every reachable state: an empty store
(only produced by `Clear`) comes with a fully rewound cursor. -/
abbrev ReachInv (a : Arena) : Prop :=
  ArenaInv a ∧ (a.buckets.length = 0 → a.curBucket = 0 ∧ a.bytesLeft = a.bucketSize)

/-- The slot `y` lies at or beyond the arena's bump frontier
`(curBucket, bucketSize - bytesLeft)`. -/
def frontAfter (a : Arena) (y : Nat × Nat × Nat) : Prop :=
  a.curBucket < y.1 ∨
    (a.curBucket = y.1 ∧ a.bucketSize - a.bytesLeft ≤ y.2.1)

/-- Ceiling division on `Nat`. -/
def ceilDiv (x y : Nat) : Nat := (x + y - 1) / y

/-- Closed form for the arena state reached from a rewound store of `C`
buckets of size `B` after `m` allocations of size `S`
(writing `k = B / S` for the number of values that fit in one bucket):
after the `m`-th allocation the cursor sits in bucket `(m-1)/k` with
`S * ((m-1) % k + 1)` bytes of it consumed, and the store has grown to
`max C ((m-1)/k + 1)` buckets. -/
def canonC (B S C m : Nat) : Arena :=
  if m = 0 then
    { buckets := List.replicate C (newBucket B)
      curBucket := 0
      bytesLeft := B
      bucketSize := B }
  else
    { buckets := List.replicate (max C ((m - 1) / (B / S) + 1)) (newBucket B)
      curBucket := (m - 1) / (B / S)
      bytesLeft := B - S * ((m - 1) % (B / S) + 1)
      bucketSize := B }

/-- `fullArena4`: the state reached from `NewArena 4` by one 4-byte
allocation — a single bucket with zero bytes left. -/
def fullArena4 : Arena :=
  { buckets := [newBucket 4], curBucket := 0, bytesLeft := 0, bucketSize := 4 }

/-- Concrete arena used by the C1 witness: one 3-byte bucket with 1 free
byte. -/
def arenaW : Arena :=
  { buckets := [newBucket 3], curBucket := 0, bytesLeft := 1, bucketSize := 3 }

/-- C6: `Reset` sets `bytesRemaining = bucketSizeBytes` and
`currentBucketIndex = 0` and changes nothing else: the bucket list (hence
every bucket's contents) and the bucket size are untouched. -/
theorem Reset_frame (a : Arena) :
    Reset a = { a with bytesLeft := a.bucketSize, curBucket := 0 } ∧
    (Reset a).buckets = a.buckets ∧
    (Reset a).bucketSize = a.bucketSize ∧
    (Reset a).bytesLeft = a.bucketSize ∧
    (Reset a).curBucket = 0 :=
  ⟨rfl, rfl, rfl, rfl, rfl⟩

lemma allocAdvance_bucketSize (size : Nat) (a : Arena) :
    (allocAdvance size a).bucketSize = a.bucketSize := by
  unfold allocAdvance
  split
  · rfl
  · split
    · split <;> rfl
    · rfl

lemma allocAdvance_bytesLeft_ge (size : Nat) (a : Arena)
    (h : size ≤ a.bucketSize) : size ≤ (allocAdvance size a).bytesLeft := by
  unfold allocAdvance
  split
  · exact h
  · split
    · split <;> exact h
    · omega

lemma allocAdvance_inv (size : Nat) (a : Arena) (h : ArenaInv a) :
    ArenaInv (allocAdvance size a) := by
  obtain ⟨h1, h2, h3⟩ := h
  unfold allocAdvance ArenaInv
  split
  · refine ⟨fun _ => by simp, le_refl _, ?_⟩
    intro b hb
    simp only [List.mem_append, List.mem_singleton] at hb
    rcases hb with hb | hb
    · exact h3 b hb
    · subst hb; simp [newBucket]
  · rename_i hne
    split
    · split
      · rename_i hlast
        refine ⟨fun _ => ?_, le_refl _, ?_⟩
        · have := h1 (by omega)
          simp only [List.length_append, List.length_singleton]
          omega
        · intro b hb
          simp only [List.mem_append, List.mem_singleton] at hb
          rcases hb with hb | hb
          · exact h3 b hb
          · subst hb; simp [newBucket]
      · rename_i hnotlast
        refine ⟨fun _ => ?_, le_refl _, h3⟩
        have := h1 (by omega)
        simp only
        omega
    · exact ⟨h1, h2, h3⟩

lemma Alloc_state_inv (size : Nat) (a : Arena) (h : ArenaInv a) :
    ArenaInv (Alloc size a).state := by
  unfold Alloc
  split
  · exact h
  · have hadv := allocAdvance_inv size a h
    split
    · split
      · obtain ⟨h1, h2, h3⟩ := hadv
        refine ⟨h1, ?_, h3⟩
        show (allocAdvance size a).bytesLeft - size ≤ (allocAdvance size a).bucketSize
        omega
      · exact hadv
    · exact hadv

lemma Alloc_state_bucketSize (size : Nat) (a : Arena) :
    (Alloc size a).state.bucketSize = a.bucketSize := by
  unfold Alloc
  split
  · rfl
  · split
    · split
      · simp only [AllocResult.state]
        exact allocAdvance_bucketSize size a
      · exact allocAdvance_bucketSize size a
    · exact allocAdvance_bucketSize size a

lemma Alloc_isErr_eq (size : Nat) (a : Arena) :
    (Alloc size a).isErr = decide (a.bucketSize < size) := by
  unfold Alloc
  split
  · rename_i h; simp [AllocResult.isErr, h]
  · rename_i h
    split
    · split <;> simp [AllocResult.isErr, h]
    · simp [AllocResult.isErr, h]

/-- C7: every public operation (construct, allocate, reset, clear) preserves
the state invariant (`curBucket` in range when buckets exist,
`bytesLeft ≤ bucketSize`, every bucket exactly `bucketSize` long), none of
them changes `bucketSize`, and `TotalMemBytes = bucketSize * NumBuckets`. -/
theorem ops_preserve_invariant (size bsz : Nat) (a : Arena) (h : ArenaInv a) :
    ArenaInv (NewArena bsz) ∧
    ArenaInv (Alloc size a).state ∧
    ArenaInv (Reset a) ∧
    ArenaInv (Clear a) ∧
    (Alloc size a).state.bucketSize = a.bucketSize ∧
    (Reset a).bucketSize = a.bucketSize ∧
    (Clear a).bucketSize = a.bucketSize ∧
    TotalMemBytes a = a.bucketSize * NumBuckets a := by
  obtain ⟨h1, h2, h3⟩ := h
  refine ⟨?_, Alloc_state_inv size a ⟨h1, h2, h3⟩, ⟨fun hp => hp, le_refl _, h3⟩,
    ⟨fun hp => absurd hp (by simp [Clear]), le_refl _,
      fun b hb => absurd hb (List.not_mem_nil b)⟩,
    Alloc_state_bucketSize size a, rfl, rfl, rfl⟩
  unfold NewArena ArenaInv
  split <;> simp [newBucket]

/-- C7 witness. -/
theorem ops_preserve_invariant_witness :
    ArenaInv (NewArena 0) ∧
    ArenaInv (Alloc 2 (NewArena 4)).state ∧
    ArenaInv (Reset (NewArena 4)) ∧
    ArenaInv (Clear (NewArena 4)) ∧
    (Alloc 2 (NewArena 4)).state.bucketSize = (NewArena 4).bucketSize ∧
    (Reset (NewArena 4)).bucketSize = (NewArena 4).bucketSize ∧
    (Clear (NewArena 4)).bucketSize = (NewArena 4).bucketSize ∧
    TotalMemBytes (NewArena 4) = (NewArena 4).bucketSize * NumBuckets (NewArena 4) :=
  ops_preserve_invariant 2 0 (NewArena 4) (by decide)

/-- C2: `Alloc` returns the `ValueToLargeErr` error exactly when the
requested size exceeds the bucket size; in that case the error carries the
requested size and the bucket size, the returned handle is the permanently
unresolvable `none`, and the arena state is returned unchanged. -/
theorem Alloc_err_iff (size : Nat) (a : Arena) :
    ((Alloc size a).isErr = true ↔ a.bucketSize < size) ∧
    (a.bucketSize < size → Alloc size a = .err size a.bucketSize none a) := by
  refine ⟨?_, fun hlt => ?_⟩
  · rw [Alloc_isErr_eq]; simp
  · unfold Alloc; rw [if_pos hlt]

/-- C2 witness. -/
theorem Alloc_err_iff_witness :
    ((Alloc 5 (NewArena 4)).isErr = true ↔ (NewArena 4).bucketSize < 5) ∧
    ((NewArena 4).bucketSize < 5 →
      Alloc 5 (NewArena 4) = .err 5 (NewArena 4).bucketSize none (NewArena 4)) :=
  Alloc_err_iff 5 (NewArena 4)

/-- C9: refuted on the code — a zero-byte allocation passes the size
precondition, yet from `NewArena 4` one 4-byte allocation leaves
`bytesLeft = 0`, and the next zero-byte allocation computes the bucket index
`bucketSize - bytesLeft = 4`, equal to the bucket length: an out-of-range
slice access (a Go runtime panic). -/
theorem Alloc_zero_size_out_of_range :
    Alloc 4 (NewArena 4) = .ok (some (0, 0)) fullArena4 ∧
    Alloc 0 fullArena4 = .oob fullArena4 := by
  constructor <;> rfl

/-- C5: `Clear` drops the entire bucket list (`NumBuckets` becomes 0) and
rewinds the cursor to `bytesLeft = bucketSize`, `curBucket = 0`; the arena
stays usable: the next successful allocation appends one fresh bucket and
returns the slot at its start. -/
theorem Clear_spec (a : Arena) (size : Nat) (h1 : 1 ≤ size)
    (h2 : size ≤ a.bucketSize) :
    NumBuckets (Clear a) = 0 ∧
    (Clear a).bytesLeft = a.bucketSize ∧
    (Clear a).curBucket = 0 ∧
    Alloc size (Clear a) =
      .ok (some (0, 0))
        { buckets := [newBucket a.bucketSize]
          curBucket := 0
          bytesLeft := a.bucketSize - size
          bucketSize := a.bucketSize } := by
  refine ⟨rfl, rfl, rfl, ?_⟩
  have hadv : allocAdvance size (Clear a) =
      { buckets := [newBucket a.bucketSize], curBucket := 0,
        bytesLeft := a.bucketSize, bucketSize := a.bucketSize } := by
    unfold allocAdvance Clear
    simp
  unfold Alloc
  rw [if_neg (by show ¬ (Clear a).bucketSize < size; exact not_lt.mpr h2)]
  rw [hadv]
  simp only [List.getElem?_cons_zero, Nat.sub_self]
  rw [if_pos (by simp only [newBucket, List.length_replicate]; omega)]

/-- C5 witness. -/
theorem Clear_spec_witness :
    NumBuckets (Clear (NewArena 4)) = 0 ∧
    (Clear (NewArena 4)).bytesLeft = (NewArena 4).bucketSize ∧
    (Clear (NewArena 4)).curBucket = 0 ∧
    Alloc 3 (Clear (NewArena 4)) =
      .ok (some (0, 0))
        { buckets := [newBucket (NewArena 4).bucketSize]
          curBucket := 0
          bytesLeft := (NewArena 4).bucketSize - 3
          bucketSize := (NewArena 4).bucketSize } :=
  Clear_spec (NewArena 4) 3 (by decide) (by decide)

/-- C1: with buckets present and `bytesRemaining < size ≤ bucketSizeBytes`,
`Alloc` appends exactly one new bucket precisely when the current bucket is
the last one, advances the cursor to the start of the next bucket
(`curBucket + 1`, `bytesLeft = bucketSize`), returns the slot at offset
`bucketSizeBytes - bytesRemaining = 0` of that bucket, then decrements
`bytesLeft` by `size`; the returned slot `[0, size)` fits inside one
bucket, so no value is split across buckets. -/
theorem Alloc_overflow_spec (a : Arena) (size : Nat) (hInv : ArenaInv a)
    (hne : a.buckets ≠ []) (hsize : size ≤ a.bucketSize)
    (hlt : a.bytesLeft < size) :
    Alloc size a =
      .ok (some (a.curBucket + 1, 0))
        { buckets :=
            if a.curBucket = a.buckets.length - 1 then
              a.buckets ++ [newBucket a.bucketSize]
            else a.buckets
          curBucket := a.curBucket + 1
          bytesLeft := a.bucketSize - size
          bucketSize := a.bucketSize } ∧
    0 + size ≤ a.bucketSize := by
  obtain ⟨h1, h2, h3⟩ := hInv
  have hlen : 0 < a.buckets.length := List.length_pos.mpr hne
  have hcb : a.curBucket < a.buckets.length := h1 hlen
  have hBpos : 0 < a.bucketSize := by omega
  refine ⟨?_, by omega⟩
  unfold Alloc
  rw [if_neg (not_lt.mpr hsize)]
  by_cases hlast : a.curBucket = a.buckets.length - 1
  · have hadv : allocAdvance size a =
        { buckets := a.buckets ++ [newBucket a.bucketSize]
          curBucket := a.curBucket + 1
          bytesLeft := a.bucketSize
          bucketSize := a.bucketSize } := by
      unfold allocAdvance
      rw [if_neg (by omega), if_pos hlt, if_pos hlast]
    rw [hadv, if_pos hlast]
    have hidx : a.curBucket + 1 = a.buckets.length := by omega
    have hget : (a.buckets ++ [newBucket a.bucketSize])[a.curBucket + 1]?
        = some (newBucket a.bucketSize) := by
      rw [hidx]
      exact List.getElem?_concat_length a.buckets (newBucket a.bucketSize)
    simp only [hget, Nat.sub_self]
    rw [if_pos (show 0 < (newBucket a.bucketSize).length by
      simp only [newBucket, List.length_replicate]; exact hBpos)]
  · have hadv : allocAdvance size a =
        { buckets := a.buckets
          curBucket := a.curBucket + 1
          bytesLeft := a.bucketSize
          bucketSize := a.bucketSize } := by
      unfold allocAdvance
      rw [if_neg (by omega), if_pos hlt, if_neg hlast]
    rw [hadv, if_neg hlast]
    have hidx : a.curBucket + 1 < a.buckets.length := by omega
    have hget : a.buckets[a.curBucket + 1]? = some (a.buckets[a.curBucket + 1]) :=
      List.getElem?_eq_getElem hidx
    have hblen : (a.buckets[a.curBucket + 1]).length = a.bucketSize :=
      h3 _ (List.getElem_mem hidx)
    simp only [hget, Nat.sub_self, hblen]
    rw [if_pos hBpos]

/-- C1 witness. -/
theorem Alloc_overflow_spec_witness :
    Alloc 2 arenaW =
      .ok (some (arenaW.curBucket + 1, 0))
        { buckets :=
            if arenaW.curBucket = arenaW.buckets.length - 1 then
              arenaW.buckets ++ [newBucket arenaW.bucketSize]
            else arenaW.buckets
          curBucket := arenaW.curBucket + 1
          bytesLeft := arenaW.bucketSize - 2
          bucketSize := arenaW.bucketSize } ∧
    0 + 2 ≤ arenaW.bucketSize :=
  Alloc_overflow_spec arenaW 2 (by decide) (by decide) (by decide) (by decide)

lemma Alloc_eval (size : Nat) (a : Arena) (bk : bucket) (hsz : size ≤ a.bucketSize)
    (hget : (allocAdvance size a).buckets[(allocAdvance size a).curBucket]?
      = some bk)
    (hoff : (allocAdvance size a).bucketSize - (allocAdvance size a).bytesLeft
      < bk.length) :
    Alloc size a =
      .ok
        (some ((allocAdvance size a).curBucket,
          (allocAdvance size a).bucketSize - (allocAdvance size a).bytesLeft))
        { allocAdvance size a with
            bytesLeft := (allocAdvance size a).bytesLeft - size } := by
  unfold Alloc
  rw [if_neg (not_lt.mpr hsz)]
  simp only [hget]
  rw [if_pos hoff]

lemma Alloc_canonC (B S C m : Nat) (hS : 1 ≤ S) (hSB : S ≤ B) (hC : 1 ≤ C) :
    Alloc S (canonC B S C m) =
      .ok (some (m / (B / S), S * (m % (B / S)))) (canonC B S C (m + 1)) := by
  have hBpos : 0 < B := by omega
  have hk : 1 ≤ B / S := (Nat.one_le_div_iff (by omega)).mpr hSB
  have hBeq : S * (B / S) + B % S = B := Nat.div_add_mod B S
  have hmodS : B % S < S := Nat.mod_lt _ (by omega)
  rcases Nat.eq_zero_or_pos m with hm | hm
  · subst hm
    have hc0 : canonC B S C 0 =
        { buckets := List.replicate C (newBucket B), curBucket := 0,
          bytesLeft := B, bucketSize := B } := by
      unfold canonC; rw [if_pos rfl]
    have hadv : allocAdvance S (canonC B S C 0) = canonC B S C 0 := by
      rw [hc0]; unfold allocAdvance
      split
      · rename_i hcontra
        simp only [List.length_replicate] at hcontra
        omega
      · split
        · rename_i hcontra
          simp only at hcontra
          omega
        · rfl
    have hget : (canonC B S C 0).buckets[(canonC B S C 0).curBucket]?
        = some (newBucket B) := by
      rw [hc0]
      simp only
      rw [List.getElem?_eq_getElem (by simp only [List.length_replicate]; omega)]
      simp [List.getElem_replicate]
    rw [Alloc_eval S (canonC B S C 0) (newBucket B)
      (by rw [hc0]; exact hSB)
      (by rw [hadv]; exact hget)
      (by rw [hadv, hc0]
          simp only [newBucket, List.length_replicate, Nat.sub_self]
          omega)]
    rw [hadv, hc0]
    unfold canonC
    rw [if_neg (by omega : ¬ (0 + 1 : Nat) = 0)]
    simp only [Nat.add_sub_cancel, Nat.zero_div, Nat.zero_mod, Nat.zero_add,
      mul_one, mul_zero, Nat.sub_self, Nat.max_eq_left hC]
  · have hm0 : ¬ m = 0 := by omega
    have hcm : canonC B S C m =
        { buckets :=
            List.replicate (max C ((m - 1) / (B / S) + 1)) (newBucket B),
          curBucket := (m - 1) / (B / S),
          bytesLeft := B - S * ((m - 1) % (B / S) + 1),
          bucketSize := B } := by
      unfold canonC; rw [if_neg hm0]
    have hrk : (m - 1) % (B / S) < B / S := Nat.mod_lt _ (by omega)
    have hqr : (B / S) * ((m - 1) / (B / S)) + (m - 1) % (B / S) = m - 1 :=
      Nat.div_add_mod (m - 1) (B / S)
    have e1 : S * ((m - 1) % (B / S) + 1) = S * ((m - 1) % (B / S)) + S := by
      ring
    have e3 : S * ((m - 1) % (B / S) + 1) ≤ S * (B / S) :=
      Nat.mul_le_mul_left S hrk
    have e4 : S * (B / S) ≤ B := by omega
    by_cases hwrap : (m - 1) % (B / S) + 1 = B / S
    · have hlt : (canonC B S C m).bytesLeft < S := by
        rw [hcm]
        simp only
        rw [hwrap]
        omega
      have hmk : m = (B / S) * ((m - 1) / (B / S) + 1) := by
        have hdist : (B / S) * ((m - 1) / (B / S) + 1)
            = (B / S) * ((m - 1) / (B / S)) + (B / S) := by ring
        omega
      have hq : m / (B / S) = (m - 1) / (B / S) + 1 := by
        conv_lhs => rw [hmk]
        exact Nat.mul_div_cancel_left _ (by omega)
      have hmod : m % (B / S) = 0 := by
        conv_lhs => rw [hmk]
        exact Nat.mul_mod_right _ _
      have eS0 : S * (0 + 1) = S := by ring
      by_cases hCle : C ≤ (m - 1) / (B / S) + 1
      · have hmax : max C ((m - 1) / (B / S) + 1) = (m - 1) / (B / S) + 1 :=
          Nat.max_eq_right hCle
        have hadv : allocAdvance S (canonC B S C m) =
            { buckets :=
                List.replicate ((m - 1) / (B / S) + 1) (newBucket B)
                  ++ [newBucket B],
              curBucket := (m - 1) / (B / S) + 1,
              bytesLeft := B, bucketSize := B } := by
          rw [hcm]; unfold allocAdvance
          split
          · rename_i hcontra
            simp only [List.length_replicate] at hcontra
            omega
          · split
            · split
              · simp only [hmax]
              · rename_i hcontra
                simp only [List.length_replicate, hmax] at hcontra
                omega
            · rename_i hcontra
              rw [hcm] at hlt
              simp only at hcontra hlt
              omega
        have hget : (allocAdvance S (canonC B S C m)).buckets[
            (allocAdvance S (canonC B S C m)).curBucket]?
            = some (newBucket B) := by
          rw [hadv]
          simp only
          rw [List.getElem?_append_right (by simp)]
          simp
        rw [Alloc_eval S (canonC B S C m) (newBucket B)
          (by rw [hcm]; exact hSB)
          hget
          (by rw [hadv]
              simp only [newBucket, List.length_replicate, Nat.sub_self]
              omega)]
        rw [hadv]
        unfold canonC
        rw [if_neg (by omega : ¬ m + 1 = 0)]
        simp only [Nat.add_sub_cancel]
        rw [hq, hmod]
        conv_rhs => rw [Nat.max_eq_right
            (show C ≤ (m - 1) / (B / S) + 1 + 1 by omega),
          List.replicate_succ']
        simp only [Nat.sub_self, mul_zero, eS0]
      · have hClt : (m - 1) / (B / S) + 1 < C := by omega
        have hmax : max C ((m - 1) / (B / S) + 1) = C :=
          Nat.max_eq_left (by omega)
        have hadv : allocAdvance S (canonC B S C m) =
            { buckets := List.replicate C (newBucket B),
              curBucket := (m - 1) / (B / S) + 1,
              bytesLeft := B, bucketSize := B } := by
          rw [hcm]; unfold allocAdvance
          split
          · rename_i hcontra
            simp only [List.length_replicate] at hcontra
            omega
          · split
            · split
              · rename_i hcontra
                simp only [List.length_replicate, hmax] at hcontra
                omega
              · simp only [hmax]
            · rename_i hcontra
              rw [hcm] at hlt
              simp only at hcontra hlt
              omega
        have hget : (allocAdvance S (canonC B S C m)).buckets[
            (allocAdvance S (canonC B S C m)).curBucket]?
            = some (newBucket B) := by
          rw [hadv]
          simp only
          rw [List.getElem?_eq_getElem
            (by simp only [List.length_replicate]; omega)]
          simp [List.getElem_replicate]
        rw [Alloc_eval S (canonC B S C m) (newBucket B)
          (by rw [hcm]; exact hSB)
          hget
          (by rw [hadv]
              simp only [newBucket, List.length_replicate, Nat.sub_self]
              omega)]
        rw [hadv]
        unfold canonC
        rw [if_neg (by omega : ¬ m + 1 = 0)]
        simp only [Nat.add_sub_cancel]
        rw [hq, hmod]
        conv_rhs => rw [Nat.max_eq_left
            (show (m - 1) / (B / S) + 1 + 1 ≤ C by omega)]
        simp only [Nat.sub_self, mul_zero, eS0]
    · have hr1k : (m - 1) % (B / S) + 1 < B / S := by omega
      have e2 : S * ((m - 1) % (B / S) + 1 + 1)
          = S * ((m - 1) % (B / S)) + S + S := by ring
      have e5 : S * ((m - 1) % (B / S) + 1 + 1) ≤ S * (B / S) :=
        Nat.mul_le_mul_left S hr1k
      have hnolt : ¬ ((canonC B S C m).bytesLeft < S) := by
        rw [hcm]
        simp only
        omega
      have hadv : allocAdvance S (canonC B S C m) = canonC B S C m := by
        rw [hcm]; unfold allocAdvance
        split
        · rename_i hcontra
          simp only [List.length_replicate] at hcontra
          omega
        · split
          · rename_i hcontra
            rw [hcm] at hnolt
            simp only at hnolt hcontra
            omega
          · rfl
      have hq : m / (B / S) = (m - 1) / (B / S) := by
        have hmeq : m = ((m - 1) % (B / S) + 1)
            + (B / S) * ((m - 1) / (B / S)) := by omega
        conv_lhs => rw [hmeq]
        rw [Nat.add_mul_div_left _ _ (by omega : 0 < B / S),
          Nat.div_eq_of_lt hr1k, Nat.zero_add]
      have hmod : m % (B / S) = (m - 1) % (B / S) + 1 := by
        have hmeq : m = ((m - 1) % (B / S) + 1)
            + (B / S) * ((m - 1) / (B / S)) := by omega
        conv_lhs => rw [hmeq]
        rw [Nat.add_mul_mod_self_left, Nat.mod_eq_of_lt hr1k]
      have hget : (canonC B S C m).buckets[(canonC B S C m).curBucket]?
          = some (newBucket B) := by
        rw [hcm]
        simp only
        rw [List.getElem?_eq_getElem
          (by simp only [List.length_replicate]; omega)]
        simp [List.getElem_replicate]
      rw [Alloc_eval S (canonC B S C m) (newBucket B)
        (by rw [hcm]; exact hSB)
        (by rw [hadv]; exact hget)
        (by rw [hadv, hcm]
            simp only [newBucket, List.length_replicate]
            omega)]
      rw [hadv, hcm]
      unfold canonC
      rw [if_neg (by omega : ¬ m + 1 = 0)]
      simp only [Nat.add_sub_cancel]
      rw [hq, hmod]
      rw [show B - (B - S * ((m - 1) % (B / S) + 1))
          = S * ((m - 1) % (B / S) + 1) from by omega]
      rw [show B - S * ((m - 1) % (B / S) + 1) - S
          = B - S * ((m - 1) % (B / S) + 1 + 1) from by omega]

lemma allocN_canonC (B S C : Nat) (hS : 1 ≤ S) (hSB : S ≤ B) (hC : 1 ≤ C)
    (n : Nat) : ∀ m : Nat, allocN S n (canonC B S C m) = canonC B S C (m + n) := by
  induction n with
  | zero => intro m; rfl
  | succ n ih =>
    intro m
    show allocN S n (Alloc S (canonC B S C m)).state = _
    rw [Alloc_canonC B S C m hS hSB hC]
    show allocN S n (canonC B S C (m + 1)) = _
    rw [ih (m + 1)]
    congr 1
    omega

lemma NewArena_eq_canonC (B S : Nat) (hB : 1 ≤ B) :
    NewArena B = canonC B S 1 0 := by
  show ({ buckets := [newBucket (if B ≤ 0 then DefaultBlockSize else B)]
          curBucket := 0
          bytesLeft := if B ≤ 0 then DefaultBlockSize else B
          bucketSize := if B ≤ 0 then DefaultBlockSize else B } : Arena)
    = canonC B S 1 0
  rw [if_neg (by omega : ¬ B ≤ 0)]
  unfold canonC
  rw [if_pos rfl]
  simp [List.replicate_one]

/-- C3 counterexample: with bucket size 3 and value size 2, three
allocations from a fresh arena occupy three buckets (one value per bucket),
while the claimed formula `ceil(N*S/B)` predicts two. -/
theorem allocN_num_buckets_counterexample :
    NumBuckets (allocN 2 3 (NewArena 3)) = 3 ∧ ceilDiv (3 * 2) 3 = 2 := by
  constructor <;> rfl

/-- C3 (amended): for `N ≥ 1` and `1 ≤ S ≤ B`, after `N` allocations of
size `S` on a fresh arena with bucket size `B` the bucket count is
`ceil(N / floor(B/S))` — each bucket holds exactly `floor(B/S)` values
because a value never splits across buckets; this equals `ceil(N*S/B)`
exactly when `S` divides `B`.  For `N = 0` the count is 1, since the
constructor pre-allocates one bucket. -/
theorem allocN_num_buckets (B S N : Nat) (hS : 1 ≤ S) (hSB : S ≤ B)
    (hN : 1 ≤ N) :
    NumBuckets (allocN S N (NewArena B)) = ceilDiv N (B / S) := by
  have hB : 1 ≤ B := le_trans hS hSB
  have hk : 1 ≤ B / S := (Nat.one_le_div_iff (by omega)).mpr hSB
  rw [NewArena_eq_canonC B S hB, allocN_canonC B S 1 hS hSB (le_refl 1) N 0]
  unfold canonC NumBuckets ceilDiv
  rw [if_neg (by omega : ¬ 0 + N = 0)]
  simp only [List.length_replicate]
  have h1 : max 1 ((0 + N - 1) / (B / S) + 1) = (0 + N - 1) / (B / S) + 1 :=
    Nat.max_eq_right (Nat.succ_le_succ (Nat.zero_le _))
  rw [h1]
  have h2 : N + B / S - 1 = (0 + N - 1) + B / S := by omega
  rw [h2, Nat.add_div_right _ (by omega)]

/-- C3 witness (the spec's own example): six allocations of size 100 with
bucket size 300 yield two buckets. -/
theorem allocN_num_buckets_witness :
    NumBuckets (allocN 100 6 (NewArena 300)) = ceilDiv 6 (300 / 100) ∧
    ceilDiv 6 (300 / 100) = 2 :=
  ⟨allocN_num_buckets 300 100 6 (by decide) (by decide) (by decide), by decide⟩

/-- C4: `Reset` never changes `NumBuckets` or `TotalMemBytes`, and
re-allocating the same count of same-sized values after a `Reset` reuses the
already-grown buckets in order: the bucket list after the refill is the very
list that existed before the reset (in particular the bucket count does not
grow). -/
theorem Reset_reuses_buckets (B S N : Nat) (hS : 1 ≤ S) (hSB : S ≤ B) :
    (∀ a : Arena, NumBuckets (Reset a) = NumBuckets a ∧
      TotalMemBytes (Reset a) = TotalMemBytes a) ∧
    (allocN S N (Reset (allocN S N (NewArena B)))).buckets
      = (allocN S N (NewArena B)).buckets ∧
    NumBuckets (allocN S N (Reset (allocN S N (NewArena B))))
      ≤ NumBuckets (allocN S N (NewArena B)) := by
  have hB : 1 ≤ B := le_trans hS hSB
  have hk : 1 ≤ B / S := (Nat.one_le_div_iff (by omega)).mpr hSB
  have hbeq : (allocN S N (Reset (allocN S N (NewArena B)))).buckets
      = (allocN S N (NewArena B)).buckets := by
    rcases Nat.eq_zero_or_pos N with hN | hN
    · subst hN; rfl
    · have hge : 1 ≤ (0 + N - 1) / (B / S) + 1 :=
        Nat.succ_le_succ (Nat.zero_le _)
      rw [NewArena_eq_canonC B S hB, allocN_canonC B S 1 hS hSB (le_refl 1) N 0]
      have hreset : Reset (canonC B S 1 (0 + N))
          = canonC B S ((0 + N - 1) / (B / S) + 1) 0 := by
        unfold canonC Reset
        rw [if_neg (by omega : ¬ 0 + N = 0), if_pos rfl]
        simp only [Nat.max_eq_right hge]
      rw [hreset,
        allocN_canonC B S ((0 + N - 1) / (B / S) + 1) hS hSB hge N 0]
      unfold canonC
      rw [if_neg (by omega : ¬ 0 + N = 0), if_neg (by omega : ¬ 0 + N = 0)]
      simp only
      congr 1
      omega
  exact ⟨fun a => ⟨rfl, rfl⟩, hbeq, le_of_eq (congrArg List.length hbeq)⟩

/-- C4 witness. -/
theorem Reset_reuses_buckets_witness :
    (∀ a : Arena, NumBuckets (Reset a) = NumBuckets a ∧
      TotalMemBytes (Reset a) = TotalMemBytes a) ∧
    (allocN 2 3 (Reset (allocN 2 3 (NewArena 3)))).buckets
      = (allocN 2 3 (NewArena 3)).buckets ∧
    NumBuckets (allocN 2 3 (Reset (allocN 2 3 (NewArena 3))))
      ≤ NumBuckets (allocN 2 3 (NewArena 3)) :=
  Reset_reuses_buckets 3 2 3 (by decide) (by decide)

lemma allocAdvance_frontier (s : Nat) (a : Arena) (hInv : ReachInv a) :
    a.curBucket < (allocAdvance s a).curBucket ∨
      (a.curBucket = (allocAdvance s a).curBucket ∧
        a.bucketSize - a.bytesLeft
          ≤ (allocAdvance s a).bucketSize - (allocAdvance s a).bytesLeft) := by
  obtain ⟨⟨h1, h2, h3⟩, hempty⟩ := hInv
  unfold allocAdvance
  split
  · rename_i hlen
    obtain ⟨hc, hb⟩ := hempty hlen
    right
    refine ⟨?_, ?_⟩
    · show a.curBucket = 0
      exact hc
    · show a.bucketSize - a.bytesLeft ≤ a.bucketSize - a.bucketSize
      omega
  · split
    · split
      · left
        show a.curBucket < a.curBucket + 1
        omega
      · left
        show a.curBucket < a.curBucket + 1
        omega
    · right
      exact ⟨rfl, le_refl _⟩

lemma Alloc_ok_spec (s : Nat) (a : Arena) (hd : Handle) (a1 : Arena)
    (hA : Alloc s a = .ok hd a1) :
    s ≤ a.bucketSize ∧
    hd = some ((allocAdvance s a).curBucket,
      (allocAdvance s a).bucketSize - (allocAdvance s a).bytesLeft) ∧
    a1 = { allocAdvance s a with
      bytesLeft := (allocAdvance s a).bytesLeft - s } ∧
    0 < (allocAdvance s a).buckets.length := by
  by_cases hsz : a.bucketSize < s
  · unfold Alloc at hA
    rw [if_pos hsz] at hA
    exact absurd hA (by simp)
  · unfold Alloc at hA
    rw [if_neg hsz] at hA
    have hpos : 0 < (allocAdvance s a).buckets.length := by
      by_contra hlen
      have hnil : (allocAdvance s a).buckets = [] :=
        List.length_eq_zero.mp (by omega)
      rw [hnil] at hA
      simp at hA
    cases hg : (allocAdvance s a).buckets[(allocAdvance s a).curBucket]? with
    | none =>
      rw [hg] at hA
      simp at hA
    | some bk =>
      rw [hg] at hA
      simp only at hA
      split at hA
      · simp only [AllocResult.ok.injEq] at hA
        exact ⟨not_lt.mp hsz, hA.1.symm, hA.2.symm, hpos⟩
      · exact absurd hA (by simp)

lemma Alloc_ok_frontier (s : Nat) (a : Arena) (b o : Nat) (a1 : Arena)
    (hInv : ReachInv a) (hA : Alloc s a = .ok (some (b, o)) a1) :
    ReachInv a1 ∧ a1.bucketSize = a.bucketSize ∧ b = a1.curBucket ∧
    o + s = a1.bucketSize - a1.bytesLeft ∧ frontAfter a (b, o, s) := by
  obtain ⟨hsz, hh, hs, hpos⟩ := Alloc_ok_spec s a _ _ hA
  have hh2 : b = (allocAdvance s a).curBucket ∧
      o = (allocAdvance s a).bucketSize - (allocAdvance s a).bytesLeft := by
    have := hh
    simp only [Option.some.injEq, Prod.mk.injEq] at this
    exact this
  obtain ⟨hb, ho⟩ := hh2
  obtain ⟨hAi1, hAi2, hAi3⟩ := allocAdvance_inv s a hInv.1
  have hge : s ≤ (allocAdvance s a).bytesLeft :=
    allocAdvance_bytesLeft_ge s a hsz
  subst hs
  subst hb
  subst ho
  refine ⟨⟨⟨?_, ?_, ?_⟩, ?_⟩, ?_, rfl, ?_, ?_⟩
  · show 0 < (allocAdvance s a).buckets.length →
      (allocAdvance s a).curBucket < (allocAdvance s a).buckets.length
    exact hAi1
  · show (allocAdvance s a).bytesLeft - s ≤ (allocAdvance s a).bucketSize
    omega
  · show ∀ b ∈ (allocAdvance s a).buckets, b.length = (allocAdvance s a).bucketSize
    exact hAi3
  · show (allocAdvance s a).buckets.length = 0 → _
    intro hlen
    exact absurd hlen (by omega)
  · show (allocAdvance s a).bucketSize = a.bucketSize
    exact allocAdvance_bucketSize s a
  · show ((allocAdvance s a).bucketSize - (allocAdvance s a).bytesLeft) + s
      = (allocAdvance s a).bucketSize - ((allocAdvance s a).bytesLeft - s)
    omega
  · have hf := allocAdvance_frontier s a hInv
    unfold frontAfter
    rcases hf with hf | ⟨hf1, hf2⟩
    · left
      exact hf
    · right
      exact ⟨hf1, hf2⟩

lemma allocSeq_spec (sizes : List Nat) :
    ∀ a : Arena, ReachInv a →
    ∀ slots afin, allocSeq sizes a = some (slots, afin) →
      slots.Pairwise SlotDisjoint ∧ ∀ y ∈ slots, frontAfter a y := by
  induction sizes with
  | nil =>
    intro a hInv slots afin hrun
    unfold allocSeq at hrun
    simp only [Option.some.injEq, Prod.mk.injEq] at hrun
    obtain ⟨h1, h2⟩ := hrun
    subst h1
    exact ⟨List.Pairwise.nil, fun y hy => absurd hy (List.not_mem_nil y)⟩
  | cons s rest ih =>
    intro a hInv slots afin hrun
    unfold allocSeq at hrun
    cases hA : Alloc s a with
    | err r bs hd a2 =>
      rw [hA] at hrun
      simp at hrun
    | oob a2 =>
      rw [hA] at hrun
      simp at hrun
    | ok hd a2 =>
      cases hd with
      | none =>
        rw [hA] at hrun
        simp at hrun
      | some p =>
        obtain ⟨b, o⟩ := p
        rw [hA] at hrun
        simp only at hrun
        cases hrest : allocSeq rest a2 with
        | none =>
          rw [hrest] at hrun
          simp at hrun
        | some pr =>
          obtain ⟨slots2, afin2⟩ := pr
          rw [hrest] at hrun
          simp only [Option.some.injEq, Prod.mk.injEq] at hrun
          obtain ⟨hslots, hafin⟩ := hrun
          subst hslots
          obtain ⟨hInv2, hbs, hb, hos, hfa⟩ := Alloc_ok_frontier s a b o a2 hInv hA
          obtain ⟨hpw, hall⟩ := ih a2 hInv2 slots2 afin2 hrest
          constructor
          · refine List.Pairwise.cons ?_ hpw
            intro y hy
            have hfy := hall y hy
            unfold SlotDisjoint
            unfold frontAfter at hfy
            rcases hfy with hlt | ⟨heq, hle⟩
            · left
              show b ≠ y.1
              omega
            · by_cases hbe : b = y.1
              · right
                left
                show o + s ≤ y.2.1
                omega
              · left
                exact hbe
          · intro y hy
            rcases List.mem_cons.mp hy with hy | hy
            · subst hy
              exact hfa
            · have hfy := hall y hy
              unfold frontAfter at hfy hfa ⊢
              simp only at hfa
              rcases hfa with hfa | ⟨hfa1, hfa2⟩
              · rcases hfy with hfy | ⟨hfy1, hfy2⟩
                · left; omega
                · left; omega
              · rcases hfy with hfy | ⟨hfy1, hfy2⟩
                · left; omega
                · right
                  exact ⟨by omega, by omega⟩

/-- C8: for every sequence of successful allocations from a reachable arena
state, with no intervening reset or clear, the issued slots are pairwise
disjoint: two slots either sit in different buckets, or their
`[offset, offset+size)` intervals do not overlap. -/
theorem allocSeq_slots_disjoint (sizes : List Nat) (a : Arena)
    (hInv : ReachInv a) (slots : List (Nat × Nat × Nat)) (afin : Arena)
    (hrun : allocSeq sizes a = some (slots, afin)) :
    slots.Pairwise SlotDisjoint :=
  (allocSeq_spec sizes a hInv slots afin hrun).1

/-- C8 witness: two 2-byte allocations on a 3-byte-bucket arena give the
slots `(bucket 0, offset 0)` and `(bucket 1, offset 0)`, which are
disjoint. -/
theorem allocSeq_slots_disjoint_witness :
    List.Pairwise SlotDisjoint [(0, 0, 2), (1, 0, 2)] :=
  allocSeq_slots_disjoint [2, 2] (NewArena 3) (by decide)
    [(0, 0, 2), (1, 0, 2)]
    { buckets := [newBucket 3, newBucket 3], curBucket := 1,
      bytesLeft := 1, bucketSize := 3 }
    (by decide)
